import Mathlib

/-!
Verification development for the motif-mark annotation and layout engine
(source file: motif-mark-oop.py).

The program's data model and algorithms are shallowly embedded below:

* `ambig_nucleotides` — the ambiguity table mapping each ambiguous
  nucleotide code to the regex character class it expands to
  (source lines 29-43, verbatim values).
* `Motif`, `modular_motif` — motif model and pattern construction
  (source lines 98-118).
* `Transcript`, `Transcript.exons`, `Transcript.motifStarts`,
  `Transcript.motifLocations`, `Transcript.position_motif` — sequence model
  and the motif search engine `find_motifs` (source lines 121-146).
* `MotifsImage` namespace — the layout formulas of `MotifsImage.__init__`
  (source lines 152-194) and its tick placement (lines 250-257).

Python strings are `String`/`List Char`; Python ints are `Nat` (all the
quantities involved are non-negative, and Python integers are unbounded so
no wrap-around modelling is needed); Python `//` is `Nat` division;
fallible operations (list indexing that can raise `IndexError`) return
`Option`.
-/

namespace MotifMark

/-- Ambiguity table of the source (lines 29-43): each ambiguous nucleotide
code maps to the regex character class, written exactly as the source's
dictionary values, of all the bases the key can stand for. -/
def ambig_nucleotides : List (Char × String) :=
  [('N', "[NAGCTU]"),
   ('R', "[RAG]"),
   ('Y', "[YTCU]"),
   ('K', "[KGTU]"),
   ('M', "[MAC]"),
   ('S', "[SGC]"),
   ('W', "[WATU]"),
   ('B', "[BCGTU]"),
   ('D', "[DAGTU]"),
   ('H', "[HACG]"),
   ('V', "[VACG]"),
   ('U', "[TU]"),
   ('T', "[TU]")]

/-- Dictionary lookup `ambig_nucleotides[c]` guarded by the membership test
`c in ambig_nucleotides.keys()` of source line 114: `some` of the class
string when `c` is a key, `none` otherwise. -/
def ambigLookup (c : Char) : Option String :=
  (ambig_nucleotides.find? (fun p => p.1 == c)).map Prod.snd

/-- Motif model (source class `Motif`, lines 98-104): the stored motif
string.  `parse_motif_txt` (line 86) upper-cases every motif line before
construction, so in the program `seq` is always upper case; the embedding
keeps the field as given, exactly like `Motif.__init__`. -/
structure Motif where
  seq : String
  deriving DecidableEq

/-- Source attribute `self.length = len(motif_seq)` (line 103). -/
def Motif.length (m : Motif) : Nat := m.seq.length

/-- Pattern construction `Motif.modular_motif` (source lines 110-118): scan
the motif string character by character; a character that is a key of
`ambig_nucleotides` contributes that key's character-class string, any other
character is appended unchanged. -/
def modular_motif (seq : String) : String :=
  String.mk (seq.data.flatMap (fun c =>
    match ambigLookup c with
    | some cls => cls.data
    | none => [c]))

/-- Source attribute `self.re_seq = self.modular_motif()` (line 104). -/
def Motif.re_seq (m : Motif) : String := modular_motif m.seq

/-- Semantic reading of one unit of the constructed pattern: the set of
sequence characters matched by the pattern fragment `modular_motif` emits
for motif character `c`.  A regex character class `[XYZ...]` matches exactly
one character among the letters between the brackets (exact for every table
entry); a pass-through character is read as a regex literal matching only
itself, which is exact for characters without special regex meaning — the
letters and digits motifs are made of.  Regex metacharacters (such as a dot,
which Python `re` treats as matching any base, or a star, which raises
`re.error`) are outside this reading, and no theorem below rests on the
pass-through branch for them: the claims evaluate it only at letters. -/
def unitChars (c : Char) : List Char :=
  match ambigLookup c with
  | some cls => cls.data.filter (fun d => !(d == '[') && !(d == ']'))
  | none => [c]

/-- Semantic reading of the whole pattern `modular_motif seq`: one
one-character-consuming unit per motif character, in order. -/
def motifUnits (seq : String) : List (List Char) := seq.data.map unitChars

/-- One anchored pattern match attempt: `unitsMatch l units` holds when the
leading characters of `l` satisfy the successive units, each unit consuming
exactly one character. -/
def unitsMatch : List Char → List (List Char) → Bool
  | _, [] => true
  | [], _ :: _ => false
  | c :: cs, u :: us => u.contains c && unitsMatch cs us

/-- The zero-width-lookahead scan
`re.finditer('(?=' + re_seq + ')', sequence)` of source line 138:
`finditer` with a zero-width pattern attempts the lookahead at every offset
`0..len(sequence)` and yields a (zero-width) match at each offset where the
inner pattern matches; `match.start() + 1` converts to 1-based positions. -/
def matchStarts (s : List Char) (units : List (List Char)) : List Nat :=
  (List.range (s.length + 1)).filterMap
    (fun i => if unitsMatch (s.drop i) units then some (i + 1) else none)

/-- Specification predicate (not part of the source): the pattern given by
`units` matches the character list `s` at 0-based offset `i`, each unit
consuming exactly one character. -/
def matchesAt (s : List Char) (units : List (List Char)) (i : Nat) : Prop :=
  i + units.length ≤ s.length ∧
    ∀ j, j < units.length →
      ∃ c cl, s.get? (i + j) = some c ∧ units.get? j = some cl ∧ c ∈ cl

/-- Sequence model (source class `Transcript`, lines 121-128): read name and
the raw mixed-case base string. -/
structure Transcript where
  readname : String
  sequence : String
  deriving DecidableEq

/-- Source attribute `self.length = len(self.sequence)` (line 128). -/
def Transcript.length (t : Transcript) : Nat := t.sequence.length

/-- The character class `[A-Z]` of source line 127. -/
def isUpperAZ (c : Char) : Bool := 'A' ≤ c && c ≤ 'Z'

/-- Source attribute `self.exons` (line 127):
`[(match.start() + 1) for match in re.finditer('[A-Z]', self.sequence)]`.
`finditer` visits the 0-based indices of the sequence in increasing order
and matches exactly the single uppercase characters, so the result is the
list of 1-based positions whose base is an uppercase letter, in order. -/
def Transcript.exons (t : Transcript) : List Nat :=
  (List.range t.sequence.length).filterMap (fun i =>
    match t.sequence.data.get? i with
    | some c => if isUpperAZ c then some (i + 1) else none
    | none => none)

/-- The upper-cased sequence `self.sequence.upper()` of source line 138
(all bases here are ASCII, where Python `str.upper` and `Char.toUpper`
agree). -/
def Transcript.upper (t : Transcript) : List Char := t.sequence.data.map Char.toUpper

/-- The 1-based match starts of one motif in the upper-cased sequence
(the `match.start() + 1` values of source line 138). -/
def Transcript.motifStarts (t : Transcript) (m : Motif) : List Nat :=
  matchStarts t.upper (motifUnits m.seq)

/-- Source lines 138-139: `self.motif_locations[motif]`, the flattened list
of `range(match.start() + 1, match.start() + motif.length + 1)` over all
matches, i.e. for every match start `s` the covered 1-based positions
`s, s+1, ..., s + length - 1`. -/
def Transcript.motifLocations (t : Transcript) (m : Motif) : List Nat :=
  (t.motifStarts m).flatMap (fun s => List.range' s m.length)

/-- Source lines 141-146: `self.position_motif`, built by iterating
`position` over `range(1, len(sequence) + 1)` and, for each position,
appending `motif.seq` for every motif (in input order — the
`motif_locations` dict preserves the insertion order of the motif list, and
the parsed motif objects are pairwise distinct dict keys) whose location
list contains the position.  The source's second condition
`motif not in self.position_motif[position]` compares the `Motif` object
against a list of strings (`motif.seq` values); a `Motif` instance never
equals a string, so that test is identically true and contributes nothing,
hence it is not part of the embedding. -/
def Transcript.position_motif (t : Transcript) (ms : List Motif) : List (Nat × List String) :=
  (List.range' 1 t.length).map (fun pos =>
    (pos, (ms.filter (fun m => decide (pos ∈ t.motifLocations m))).map Motif.seq))

namespace MotifsImage

/-- Source line 160: `self.scale = 2`. -/
def scale : Nat := 2

/-- Source line 164: `self.foot_len = 120`. -/
def foot_len : Nat := 120

/-- Source line 165: `self.spacing = 200`. -/
def spacing : Nat := 200

/-- Source line 166: `self.margins = 50`. -/
def margins : Nat := 50

/-- Source line 162: `self.title_len = 25 + (20 * len(self.motifs))`. -/
def title_len (ms : List Motif) : Nat := 25 + 20 * ms.length

/-- Source line 163:
`self.longest_len = max(transcripts_list, key=lambda x: x.length).length`,
the length of the longest transcript.  Python `max` raises on an empty
list; the embedding returns 0 there, and every theorem about the layout
assumes a non-empty transcript list as the program does. -/
def longest_len : List Transcript → Nat
  | [] => 0
  | t :: ts => max t.length (longest_len ts)

/-- Source line 169: `self.width = (self.margins * 2) + (self.longest_len * self.scale)`. -/
def width (ts : List Transcript) : Nat := margins * 2 + longest_len ts * scale

/-- Source line 170:
`self.height = (self.num_images * self.spacing) + self.title_len + self.foot_len`,
with `self.num_images = len(transcripts_list)` (line 161). -/
def height (ts : List Transcript) (ms : List Motif) : Nat :=
  ts.length * spacing + title_len ms + foot_len

/-- Source line 173: `self.tick_spacing = (self.longest_len * self.scale) // 4`
(Python floor division). -/
def tick_spacing (ts : List Transcript) : Nat := longest_len ts * scale / 4

/-- Python `round` on a float that is an exact multiple of a quarter:
round half to even, here for the rational `a / b`. -/
def roundHalfEven (a b : Nat) : Nat :=
  if 2 * (a % b) < b then a / b
  else if b < 2 * (a % b) then a / b + 1
  else if a / b % 2 = 0 then a / b else a / b + 1

/-- Source line 174: the five tick labels
`["0", str(round(L/4)), str(round(L/2)), str(round((L*3)/4)), str(L)]`
for `L = self.longest_len`.  The divisions are exact binary floats
(multiples of 0.25), on which Python `round` is round-half-to-even. -/
def ticklabels (ts : List Transcript) : List String :=
  ["0", toString (roundHalfEven (longest_len ts) 4),
   toString (roundHalfEven (longest_len ts) 2),
   toString (roundHalfEven (longest_len ts * 3) 4),
   toString (longest_len ts)]

/-- The x coordinates at which `add_ticks` (source lines 250-257) draws the
tick marks: `self.margins + (i * self.tick_spacing)` for
`i in range(len(self.ticklabels))`. -/
def tick_positions (ts : List Transcript) : List Nat :=
  (List.range (ticklabels ts).length).map (fun i => margins + i * tick_spacing ts)

/-- Color values of the palette.  The source stores triples of Python
floats; every literal is modelled as the exact rational it denotes (the
actual values play no role in the claims, only the palette's length and
order do). -/
abbrev Color := ℚ × ℚ × ℚ

/-- Source lines 178-189: the fixed ten-entry color palette, in order:
green, red, blue, purple, teal, pink, maroon, orange, yellow, salmon. -/
def colors : List Color :=
  [(0, 0.5, 0),
   (1, 0, 0),
   (0, 0, 1),
   (0.5, 0, 0.5),
   (0, 0.75, 1),
   (1, 0, 1),
   (0.6, 0.2, 0.4),
   (1, 0.4, 0),
   (1, 1, 0),
   (1, 0, 0.5)]

/-- Source lines 192-194, generalized over the running palette index:
`for co_count, motif in enumerate(motifs_list): self.color_pairs[motif.seq] = self.colors[co_count]`.
The list indexing `self.colors[co_count]` raises `IndexError` when the
index is out of range, which aborts the construction; the embedding makes
that the `none` outcome.  The assignments are kept as an ordered
association list (the source's dict preserves insertion order). -/
def color_pairs_from (i : Nat) : List Motif → Option (List (String × Color))
  | [] => some []
  | m :: rest =>
    match colors.get? i with
    | none => none
    | some c => (color_pairs_from (i + 1) rest).map (fun l => (m.seq, c) :: l)

/-- Source lines 192-194: the full color assignment, starting at palette
index 0. -/
def color_pairs (ms : List Motif) : Option (List (String × Color)) :=
  color_pairs_from 0 ms

end MotifsImage

/-- Concrete motif with raw sequence AA (for the overlap examples). -/
def exMotifAA : Motif := ⟨"AA"⟩

/-- Concrete motif with raw sequence T. -/
def exMotifT : Motif := ⟨"T"⟩

/-- Concrete motif with raw sequence X (a character that is neither an
ambiguity code nor one of A, C, G, T). -/
def exMotifX : Motif := ⟨"X"⟩

/-- Concrete motif with raw sequence N. -/
def exMotifN : Motif := ⟨"N"⟩

/-- Concrete motif with raw sequence Y. -/
def exMotifY : Motif := ⟨"Y"⟩

/-- Concrete motif with raw sequence ACG. -/
def exMotifACG : Motif := ⟨"ACG"⟩

/-- Concrete transcript with sequence AAAA. -/
def exTranAAAA : Transcript := ⟨"t", "AAAA"⟩

/-- Concrete transcript with sequence AA. -/
def exTranAA : Transcript := ⟨"t", "AA"⟩

/-- Concrete transcript with the mixed-case sequence acgtACGTacgt. -/
def exTranMixed : Transcript := ⟨"t", "acgtACGTacgt"⟩

/-- Concrete transcript of odd length 5. -/
def exTranLen5 : Transcript := ⟨"t", "acgta"⟩

/-- Concrete transcript whose single base is the literal letter N. -/
def exTranN : Transcript := ⟨"n", "N"⟩

/-- Concrete transcript containing the literal base letter Y at position 2. -/
def exTranYlit : Transcript := ⟨"y", "aYa"⟩

/-- Motif list holding the same raw sequence AA twice (two distinct parsed
motif objects, as two identical lines of a motif file produce). -/
def exMotifsDup : List Motif := [⟨"AA"⟩, ⟨"AA"⟩]

/-- Ten pairwise distinct motifs: exactly the palette size. -/
def motifs10 : List Motif :=
  [⟨"A"⟩, ⟨"C"⟩, ⟨"G"⟩, ⟨"T"⟩, ⟨"N"⟩, ⟨"R"⟩, ⟨"Y"⟩, ⟨"K"⟩, ⟨"M"⟩, ⟨"S"⟩]

/-- Eleven pairwise distinct motifs: one more than the palette size. -/
def motifs11 : List Motif := motifs10 ++ [⟨"W"⟩]

/-!
Theorems.  First the supporting lemmas about the search engine, then one
theorem per claim.
-/

/-- Pointwise characterization of one anchored match attempt. -/
theorem unitsMatch_iff_forall (l : List Char) (units : List (List Char)) :
    unitsMatch l units = true ↔
      units.length ≤ l.length ∧
        ∀ j, j < units.length →
          ∃ c cl, l.get? j = some c ∧ units.get? j = some cl ∧ c ∈ cl := by
  induction units generalizing l with
  | nil => simp [unitsMatch]
  | cons u us ih =>
    cases l with
    | nil => simp [unitsMatch]
    | cons c cs =>
      rw [show unitsMatch (c :: cs) (u :: us) = (u.contains c && unitsMatch cs us) from rfl,
        Bool.and_eq_true, ih]
      constructor
      · rintro ⟨hc, hlen, hall⟩
        refine ⟨by simpa using hlen, ?_⟩
        intro j hj
        match j with
        | 0 => exact ⟨c, u, rfl, rfl, by simpa using hc⟩
        | j + 1 =>
          obtain ⟨d, dl, h1, h2, h3⟩ := hall j (by simpa using hj)
          exact ⟨d, dl, h1, h2, h3⟩
      · rintro ⟨hlen, hall⟩
        obtain ⟨d, dl, h1, h2, h3⟩ := hall 0 (by simp)
        have hd : d = c := by simpa using h1.symm
        have hdl : dl = u := by simpa using h2.symm
        subst hd; subst hdl
        refine ⟨by simpa using h3, by simpa using hlen, ?_⟩
        intro j hj
        exact hall (j + 1) (by simpa using hj)

/-- Anchored matching of the dropped suffix is matching at the offset. -/
theorem unitsMatch_drop_iff (s : List Char) (units : List (List Char)) (i : Nat)
    (hi : i ≤ s.length) :
    unitsMatch (s.drop i) units = true ↔ matchesAt s units i := by
  rw [unitsMatch_iff_forall, matchesAt]
  constructor
  · rintro ⟨hlen, hall⟩
    rw [List.length_drop] at hlen
    refine ⟨by omega, ?_⟩
    intro j hj
    obtain ⟨c, cl, h1, h2, h3⟩ := hall j hj
    rw [List.get?_drop] at h1
    exact ⟨c, cl, h1, h2, h3⟩
  · rintro ⟨hlen, hall⟩
    refine ⟨by rw [List.length_drop]; omega, ?_⟩
    intro j hj
    obtain ⟨c, cl, h1, h2, h3⟩ := hall j hj
    exact ⟨c, cl, by rw [List.get?_drop]; exact h1, h2, h3⟩

/-- Completeness and soundness of the zero-width-lookahead scan: a 1-based
position is reported exactly when the pattern matches there. -/
theorem mem_matchStarts (s : List Char) (units : List (List Char)) (i : Nat) :
    (i + 1) ∈ matchStarts s units ↔ matchesAt s units i := by
  unfold matchStarts
  rw [List.mem_filterMap]
  constructor
  · rintro ⟨j, hj, hfj⟩
    rw [List.mem_range] at hj
    by_cases h : unitsMatch (s.drop j) units = true
    · rw [if_pos h] at hfj
      have hj_eq : j = i := by
        injection hfj with hfj
        omega
      subst hj_eq
      exact (unitsMatch_drop_iff s units j (by omega)).mp h
    · rw [if_neg h] at hfj
      cases hfj
  · intro h
    have hi : i ≤ s.length := by
      have := h.1
      omega
    refine ⟨i, by rw [List.mem_range]; omega, ?_⟩
    rw [if_pos ((unitsMatch_drop_iff s units i hi).mpr h)]

/-- C1: for every motif and every sequence, the search engine reports every
1-based start position at which the motif's resolved pattern matches the
upper-cased sequence — no position more, no position less, overlapping
occurrences included; in particular searching motif AA in sequence AAAA
yields match starts 1, 2 and 3. -/
theorem C1 :
    (∀ (t : Transcript) (m : Motif) (i : Nat),
        (i + 1) ∈ t.motifStarts m ↔ matchesAt t.upper (motifUnits m.seq) i)
    ∧ Transcript.motifStarts exTranAAAA exMotifAA = [1, 2, 3] :=
  ⟨fun t m i => mem_matchStarts t.upper (motifUnits m.seq) i, by decide⟩

/-- Closed instance of C1 at the overlap example. -/
theorem C1_witness :
    (2 + 1) ∈ Transcript.motifStarts exTranAAAA exMotifAA ↔
      matchesAt (Transcript.upper exTranAAAA) (motifUnits exMotifAA.seq) 2 :=
  C1.1 exTranAAAA exMotifAA 2

/-- C2: for every sequence and motif list, the annotation index has exactly
one key per 1-based position 1..length, in order, with no extra keys, and a
position covered by no motif occurrence carries the empty label list. -/
theorem C2 :
    ∀ (t : Transcript) (ms : List Motif),
      (t.position_motif ms).map Prod.fst = List.range' 1 t.length
      ∧ ∀ pr ∈ t.position_motif ms,
          (∀ m ∈ ms, pr.1 ∉ t.motifLocations m) → pr.2 = [] := by
  intro t ms
  constructor
  · unfold Transcript.position_motif
    rw [List.map_map]
    show List.map id (List.range' 1 t.length) = List.range' 1 t.length
    exact List.map_id (List.range' 1 t.length)
  · intro pr hpr hnone
    unfold Transcript.position_motif at hpr
    rw [List.mem_map] at hpr
    obtain ⟨pos, hpos, rfl⟩ := hpr
    show ((ms.filter (fun m => decide (pos ∈ t.motifLocations m))).map Motif.seq) = []
    rw [List.map_eq_nil_iff, List.filter_eq_nil_iff]
    intro m hm
    simpa using hnone m hm

/-- Closed instance of C2: sequence AAAA with the empty motif list has keys
1..4 and an empty label list at position 1. -/
theorem C2_witness :
    (Transcript.position_motif exTranAAAA []).map Prod.fst
        = List.range' 1 exTranAAAA.length
    ∧ (1, ([] : List String)).2 = [] :=
  ⟨(C2 exTranAAAA []).1,
   (C2 exTranAAAA []).2 (1, []) (by decide)
     (fun m hm => absurd hm (List.not_mem_nil m))⟩

/-- Membership in the flattened location list of one motif. -/
theorem mem_motifLocations (t : Transcript) (m : Motif) (pos : Nat) :
    pos ∈ t.motifLocations m ↔
      ∃ s ∈ t.motifStarts m, s ≤ pos ∧ pos < s + m.length := by
  unfold Transcript.motifLocations
  rw [List.mem_flatMap]
  constructor
  · rintro ⟨s, hs, hmem⟩
    rw [List.mem_range'_1] at hmem
    exact ⟨s, hs, hmem⟩
  · rintro ⟨s, hs, h1, h2⟩
    exact ⟨s, hs, List.mem_range'_1.mpr ⟨h1, h2⟩⟩

/-- If the raw sequences of a motif list are pairwise distinct, then for a
motif of the list passing the filter, its raw sequence occurs exactly once
among the kept labels. -/
theorem count_seq_filter (ms : List Motif) (h : (ms.map Motif.seq).Nodup)
    (p : Motif → Bool) (m : Motif) (hm : m ∈ ms) (hp : p m = true) :
    ((ms.filter p).map Motif.seq).count m.seq = 1 := by
  induction ms with
  | nil => cases hm
  | cons a ms ih =>
    rw [List.map_cons, List.nodup_cons] at h
    obtain ⟨ha, h2⟩ := h
    rcases List.mem_cons.mp hm with rfl | hm2
    · rw [List.filter_cons_of_pos hp, List.map_cons, List.count_cons_self]
      have hnot : m.seq ∉ (ms.filter p).map Motif.seq := fun hx =>
        ha (((List.filter_sublist ms).map Motif.seq).mem hx)
      rw [List.count_eq_zero.mpr hnot]
    · have hne : m.seq ≠ a.seq := fun he =>
        ha (he ▸ List.mem_map_of_mem Motif.seq hm2)
      by_cases hpa : p a = true
      · rw [List.filter_cons_of_pos hpa, List.map_cons,
          List.count_cons_of_ne hne]
        exact ih h2 hm2
      · rw [List.filter_cons_of_neg (by simpa using hpa)]
        exact ih h2 hm2

/-- C3 counterexample: a motif list holding raw sequence AA twice (two
distinct parsed motif objects, as two identical motif-file lines produce)
annotates sequence AA with the label AA twice at each covered position —
the source's dedup test compares a motif object against a list of strings
and never fires — so the claim's "exactly once … even when the motif list
contains two motifs with equal raw_sequence" fails. -/
theorem C3_counterexample :
    Transcript.position_motif exTranAA exMotifsDup
        = [(1, [exMotifAA.seq, exMotifAA.seq]), (2, [exMotifAA.seq, exMotifAA.seq])]
    ∧ 1 ∈ Transcript.motifLocations exTranAA exMotifAA
    ∧ List.count exMotifAA.seq [exMotifAA.seq, exMotifAA.seq] ≠ 1 := by
  refine ⟨by decide, by decide, by decide⟩

/-- C3 amended: provided no two motifs of the input list share a raw
sequence, every position covered by an occurrence of a motif lists that
motif's raw sequence exactly once — overlapping occurrences of the same
motif included — and the label list at every position is a sublist of the
input motif order (first-discovered-motif-first).  Two distinct motif
entries with equal raw sequence, however, each contribute that label. -/
theorem C3_amended :
    ∀ (t : Transcript) (ms : List Motif), (ms.map Motif.seq).Nodup →
      (∀ m ∈ ms, ∀ s ∈ t.motifStarts m, ∀ pos, s ≤ pos → pos < s + m.length →
        ∀ pr ∈ t.position_motif ms, pr.1 = pos → pr.2.count m.seq = 1)
      ∧ ∀ pr ∈ t.position_motif ms, pr.2.Sublist (ms.map Motif.seq) := by
  intro t ms h
  constructor
  · intro m hm s hs pos h1 h2 pr hpr hfst
    unfold Transcript.position_motif at hpr
    rw [List.mem_map] at hpr
    obtain ⟨q, hq, rfl⟩ := hpr
    have hqpos : q = pos := hfst
    subst hqpos
    show ((ms.filter (fun x => decide (q ∈ t.motifLocations x))).map Motif.seq).count m.seq = 1
    apply count_seq_filter ms h _ m hm
    rw [decide_eq_true_eq, mem_motifLocations]
    exact ⟨s, hs, h1, h2⟩
  · intro pr hpr
    unfold Transcript.position_motif at hpr
    rw [List.mem_map] at hpr
    obtain ⟨q, hq, rfl⟩ := hpr
    show (((ms.filter (fun x => decide (q ∈ t.motifLocations x))).map Motif.seq)).Sublist
      (ms.map Motif.seq)
    exact (List.filter_sublist ms).map Motif.seq

/-- Closed instance of C3 amended: the single-entry motif list AA on
sequence AA lists the label once at covered position 1. -/
theorem C3_amended_witness :
    List.count exMotifAA.seq [exMotifAA.seq] = 1
    ∧ List.Sublist [exMotifAA.seq] (List.map Motif.seq [exMotifAA]) :=
  ⟨(C3_amended exTranAA [exMotifAA] (by decide)).1 exMotifAA (by decide)
      1 (by decide) 1 (by decide) (by decide)
      (1, [exMotifAA.seq]) (by decide) rfl,
   (C3_amended exTranAA [exMotifAA] (by decide)).2
      (1, [exMotifAA.seq]) (by decide)⟩

/-- A flat map whose function is the singleton on every listed element is
the identity. -/
theorem flatMap_eq_self_of_singleton {α : Type} (l : List α) (f : α → List α)
    (h : ∀ c ∈ l, f c = [c]) : l.flatMap f = l := by
  induction l with
  | nil => rfl
  | cons a l ih =>
    rw [List.flatMap_cons, h a (List.mem_cons_self a l),
      ih (fun c hc => h c (List.mem_cons_of_mem a hc))]
    rfl

/-- C4 counterexample: the letter T is itself a key of the ambiguity table
(source line 42 maps it to the class matching T or U), so the motif T —
composed only of A/C/G/T — has a match pattern different from its raw
sequence. -/
theorem C4_counterexample :
    Motif.re_seq exMotifT = "[TU]" ∧ Motif.re_seq exMotifT ≠ exMotifT.seq := by
  refine ⟨by decide, by decide⟩

/-- C4 amended: for every motif whose raw sequence consists only of the
characters A, C and G, the derived match pattern equals the raw sequence
itself, no expansion applied; a T in the raw sequence, by contrast, is
expanded to the two-letter class matching T or U. -/
theorem C4_amended :
    ∀ m : Motif, (∀ c ∈ m.seq.data, c = 'A' ∨ c = 'C' ∨ c = 'G') →
      m.re_seq = m.seq := by
  intro m h
  show String.mk (m.seq.data.flatMap _) = m.seq
  rw [flatMap_eq_self_of_singleton]
  intro c hc
  have : ambigLookup c = none := by
    rcases h c hc with rfl | rfl | rfl <;> decide
  rw [this]

/-- Closed instance of C4 amended at the motif ACG. -/
theorem C4_witness : Motif.re_seq exMotifACG = exMotifACG.seq :=
  C4_amended exMotifACG (by decide)

/-- C5 counterexample: the motif X contains a character that is neither an
ambiguity-table key nor one of A/C/G/T, yet pattern construction succeeds
and emits the character unchanged into the match pattern — the source's
`modular_motif` has no failure path at all, so no `InvalidMotifCharacter`
error is ever raised. -/
theorem C5_counterexample :
    Motif.re_seq exMotifX = exMotifX.seq
    ∧ 'X' ∈ (Motif.re_seq exMotifX).data := by
  refine ⟨by decide, by decide⟩

/-- C5 amended: pattern construction is total and never fails; every motif
character that is not an ambiguity-table key — the characters A/C/G and any
unrecognized character alike — is emitted unchanged into the match pattern
rather than raising an error, and the search engine then searches with that
pattern as is. -/
theorem C5_amended :
    ∀ (m : Motif) (c : Char), ambigLookup c = none → c ∈ m.seq.data →
      c ∈ m.re_seq.data := by
  intro m c hl hc
  show c ∈ (String.mk (m.seq.data.flatMap _)).data
  rw [show (String.mk (m.seq.data.flatMap (fun c =>
      match ambigLookup c with
      | some cls => cls.data
      | none => [c]))).data = m.seq.data.flatMap (fun c =>
      match ambigLookup c with
      | some cls => cls.data
      | none => [c]) from rfl]
  rw [List.mem_flatMap]
  refine ⟨c, hc, ?_⟩
  rw [hl]
  exact List.mem_singleton.mpr rfl

/-- Closed instance of C5 amended: the unrecognized character X is emitted
into the pattern of motif X. -/
theorem C5_witness :
    'X' ∈ (Motif.re_seq exMotifX).data :=
  C5_amended exMotifX 'X' (by decide) (by decide)

namespace MotifsImage

/-- The longest-transcript length bounds every transcript's length. -/
theorem longest_len_ub : ∀ (ts : List Transcript), ∀ t ∈ ts, t.length ≤ longest_len ts := by
  intro ts
  induction ts with
  | nil => intro t ht; cases ht
  | cons a ts ih =>
    intro t ht
    rcases List.mem_cons.mp ht with rfl | h2
    · exact Nat.le_max_left _ _
    · exact Nat.le_trans (ih t h2) (Nat.le_max_right _ _)

/-- On a non-empty transcript list the longest-transcript length is
attained. -/
theorem longest_len_attained :
    ∀ ts : List Transcript, ts ≠ [] → ∃ t ∈ ts, longest_len ts = t.length := by
  intro ts
  induction ts with
  | nil => intro h; cases h rfl
  | cons a ts ih =>
    intro _
    cases ts with
    | nil => exact ⟨a, List.mem_cons_self a [], by simp [longest_len]⟩
    | cons b ts2 =>
      obtain ⟨t, ht, hlen⟩ := ih (by simp)
      rcases Nat.le_total (longest_len (b :: ts2)) a.length with hle | hle
      · exact ⟨a, List.mem_cons_self _ _,
          by rw [show longest_len (a :: b :: ts2) = max a.length (longest_len (b :: ts2)) from rfl,
            Nat.max_eq_left hle]⟩
      · exact ⟨t, List.mem_cons_of_mem a ht,
          by rw [show longest_len (a :: b :: ts2) = max a.length (longest_len (b :: ts2)) from rfl,
            Nat.max_eq_right hle, hlen]⟩

/-- C6: for every non-empty transcript list and every motif list, the
canvas width is twice the margin plus the fixed scale of 2 pixels per base
times the maximal sequence length, and the canvas height is the row count
times the fixed row spacing of 200 plus a header growing linearly with the
motif count plus the fixed footer. -/
theorem C6 :
    ∀ (ts : List Transcript) (ms : List Motif), ts ≠ [] →
      width ts = 2 * margins + scale * longest_len ts
      ∧ height ts ms = ts.length * spacing + title_len ms + foot_len
      ∧ title_len ms = 25 + 20 * ms.length
      ∧ scale = 2 ∧ spacing = 200
      ∧ (∃ t ∈ ts, longest_len ts = t.length)
      ∧ ∀ t ∈ ts, t.length ≤ longest_len ts := by
  intro ts ms hne
  refine ⟨?_, rfl, rfl, rfl, rfl, longest_len_attained ts hne, longest_len_ub ts⟩
  show margins * 2 + longest_len ts * scale = 2 * margins + scale * longest_len ts
  rw [Nat.mul_comm margins 2, Nat.mul_comm (longest_len ts) scale]

/-- Closed instance of C6 at a single transcript and the empty motif
list. -/
theorem C6_witness :
    width [exTranAAAA] = 2 * margins + scale * longest_len [exTranAAAA]
    ∧ height [exTranAAAA] [] = 200 + title_len [] + foot_len :=
  ⟨(C6 [exTranAAAA] [] (by decide)).1,
   (C6 [exTranAAAA] [] (by decide)).2.1⟩

/-- C7 counterexample: for a longest sequence of odd length 5 the five
ticks sit at x = 50, 52, 54, 56, 58 while the right end of the drawable
width sits at x = 60 — the floor division in the tick spacing makes the
last tick miss the right end whenever 4 does not divide twice the longest
length. -/
theorem C7_counterexample :
    tick_positions [exTranLen5] = [50, 52, 54, 56, 58]
    ∧ margins + scale * longest_len [exTranLen5] = 60
    ∧ (tick_positions [exTranLen5]).getLast?
        ≠ some (margins + scale * longest_len [exTranLen5]) := by
  refine ⟨by decide, by decide, by decide⟩

/-- C7 amended: the layout always places exactly 5 evenly spaced ticks,
the first at the left margin and the spacing the floor of a quarter of the
drawable width, labelled with the half-to-even rounded base counts at the
fractions 0, 1/4, 1/2, 3/4 and 1 of the longest length; the last tick
coincides with the right end of the drawable width exactly when 4 divides
scale times the longest length (in particular whenever the longest length
is even). -/
theorem C7_amended :
    ∀ ts : List Transcript, ts ≠ [] →
      (tick_positions ts).length = 5
      ∧ tick_positions ts
          = [margins, margins + tick_spacing ts, margins + 2 * tick_spacing ts,
             margins + 3 * tick_spacing ts, margins + 4 * tick_spacing ts]
      ∧ tick_spacing ts = longest_len ts * scale / 4
      ∧ ticklabels ts
          = ["0", toString (roundHalfEven (longest_len ts) 4),
             toString (roundHalfEven (longest_len ts) 2),
             toString (roundHalfEven (longest_len ts * 3) 4),
             toString (longest_len ts)]
      ∧ ((tick_positions ts).getLast? = some (margins + scale * longest_len ts)
          ↔ longest_len ts * scale % 4 = 0) := by
  intro ts _
  have hpos : tick_positions ts
      = [margins + 0 * tick_spacing ts, margins + 1 * tick_spacing ts,
         margins + 2 * tick_spacing ts, margins + 3 * tick_spacing ts,
         margins + 4 * tick_spacing ts] := rfl
  refine ⟨rfl, by rw [hpos]; norm_num, rfl, rfl, ?_⟩
  rw [hpos]
  show some (margins + 4 * tick_spacing ts) = some (margins + scale * longest_len ts)
    ↔ longest_len ts * scale % 4 = 0
  rw [Option.some_inj]
  unfold tick_spacing scale margins
  omega

/-- Closed instance of C7 amended at a transcript of even length 4, where
the last tick does reach the right end of the drawable width. -/
theorem C7_witness :
    tick_positions [exTranAAAA]
        = [margins, margins + tick_spacing [exTranAAAA],
           margins + 2 * tick_spacing [exTranAAAA],
           margins + 3 * tick_spacing [exTranAAAA],
           margins + 4 * tick_spacing [exTranAAAA]]
    ∧ ((tick_positions [exTranAAAA]).getLast?
          = some (margins + scale * longest_len [exTranAAAA])
        ↔ longest_len [exTranAAAA] * scale % 4 = 0) :=
  ⟨(C7_amended [exTranAAAA] (by decide)).2.1,
   (C7_amended [exTranAAAA] (by decide)).2.2.2.2⟩

/-- The color assignment loop succeeds from running index i exactly when
the remaining motifs fit in the rest of the palette. -/
theorem color_pairs_from_isSome (ms : List Motif) :
    ∀ i, (color_pairs_from i ms).isSome = true ↔ ms.length ≤ colors.length - i := by
  induction ms with
  | nil =>
    intro i
    simp [color_pairs_from]
  | cons m rest ih =>
    intro i
    cases hg : colors.get? i with
    | none =>
      have hnone : color_pairs_from i (m :: rest) = none := by
        unfold color_pairs_from
        rw [hg]
      rw [List.get?_eq_none] at hg
      rw [hnone]
      simp only [Option.isSome_none, List.length_cons]
      constructor
      · intro h; cases h
      · intro h; omega
    | some c =>
      have heq : color_pairs_from i (m :: rest)
          = (color_pairs_from (i + 1) rest).map (fun l => (m.seq, c) :: l) := by
        rw [show color_pairs_from i (m :: rest)
            = (match colors.get? i with
              | none => none
              | some c => (color_pairs_from (i + 1) rest).map
                  (fun l => (m.seq, c) :: l)) from rfl]
        rw [hg]
      have hi : i < colors.length := by
        by_contra hge
        rw [List.get?_eq_none.mpr (by omega)] at hg
        cases hg
      rw [heq, Option.isSome_map', ih (i + 1), List.length_cons]
      omega

/-- On success the color assignment pairs the motif raw sequences, in input
order, with the palette entries from the running index on, in palette
order. -/
theorem color_pairs_from_spec (ms : List Motif) :
    ∀ i l, color_pairs_from i ms = some l →
      l.map Prod.fst = ms.map Motif.seq
      ∧ l.map Prod.snd = (colors.drop i).take ms.length := by
  induction ms with
  | nil =>
    intro i l h
    injection h with h
    subst h
    exact ⟨rfl, rfl⟩
  | cons m rest ih =>
    intro i l h
    unfold color_pairs_from at h
    cases hg : colors.get? i with
    | none => rw [hg] at h; cases h
    | some c =>
      rw [hg] at h
      cases hrec : color_pairs_from (i + 1) rest with
      | none => rw [hrec] at h; cases h
      | some l2 =>
        rw [hrec] at h
        injection h with h
        subst h
        obtain ⟨h1, h2⟩ := ih (i + 1) l2 hrec
        have hdrop : colors.drop i = c :: colors.drop (i + 1) := by
          obtain ⟨hi, hc⟩ := List.get?_eq_some.mp hg
          rw [List.drop_eq_getElem_cons hi]
          rw [show colors[i] = c from hc]
        refine ⟨?_, ?_⟩
        · show List.map Prod.fst ((m.seq, c) :: l2) = List.map Motif.seq (m :: rest)
          rw [List.map_cons, List.map_cons, h1]
        · show List.map Prod.snd ((m.seq, c) :: l2)
            = List.take (rest.length + 1) (colors.drop i)
          rw [List.map_cons, h2, hdrop, List.take_succ_cons]

/-- C8: the palette has exactly 10 entries; the color assignment walks the
motifs in input order pairing them with palette entries 0, 1, 2, ... in
order; it succeeds exactly when the motif count is at most 10 — so exactly
10 motifs succeed — and one motif more fails (the source's out-of-range
palette indexing) instead of silently wrapping around. -/
theorem C8 :
    ∀ ms : List Motif,
      colors.length = 10
      ∧ ((color_pairs ms).isSome = true ↔ ms.length ≤ 10)
      ∧ ∀ l, color_pairs ms = some l →
          l.map Prod.fst = ms.map Motif.seq
          ∧ l.map Prod.snd = colors.take ms.length := by
  intro ms
  refine ⟨rfl, ?_, ?_⟩
  · rw [show (10 : Nat) = colors.length from rfl]
    have h := color_pairs_from_isSome ms 0
    rw [Nat.sub_zero] at h
    exact h
  · intro l h
    have hs := color_pairs_from_spec ms 0 l h
    rw [List.drop_zero] at hs
    exact hs

/-- Closed instance of C8 at the boundaries: exactly 10 motifs succeed and
11 motifs fail. -/
theorem C8_witness :
    ((MotifsImage.color_pairs motifs10).isSome = true)
    ∧ ¬ ((MotifsImage.color_pairs motifs11).isSome = true) :=
  ⟨(C8 motifs10).2.1.mpr (by decide),
   fun h => absurd ((C8 motifs11).2.1.mp h) (by decide)⟩

end MotifsImage

/-- One candidate step of the exon scan only ever produces the successor of
the scanned index, and only at an uppercase base. -/
theorem exonStep_some (t : Transcript) (j b : Nat)
    (hb : (match t.sequence.data.get? j with
      | some c => if isUpperAZ c then some (j + 1) else none
      | none => none) = some b) :
    b = j + 1 ∧ ∃ c, t.sequence.data.get? j = some c ∧ isUpperAZ c = true := by
  split at hb
  next c heq =>
    split at hb
    next hup =>
      injection hb with hb
      exact ⟨hb.symm, c, heq, hup⟩
    next => cases hb
  next => cases hb

/-- C9: a 1-based position is an exon position exactly when the base at it
is an uppercase letter A-Z; the exon position list is strictly increasing
and contained in 1..length; and for the sequence acgtACGTacgt it equals
5, 6, 7, 8. -/
theorem C9 :
    (∀ (t : Transcript) (i : Nat),
        i ∈ t.exons
          ↔ 1 ≤ i ∧ ∃ c, t.sequence.data.get? (i - 1) = some c ∧ isUpperAZ c = true)
    ∧ (∀ t : Transcript, t.exons.Pairwise (· < ·))
    ∧ (∀ t : Transcript, ∀ i ∈ t.exons, 1 ≤ i ∧ i ≤ t.length)
    ∧ Transcript.exons exTranMixed = [5, 6, 7, 8] := by
  have hmem : ∀ (t : Transcript) (i : Nat),
      i ∈ t.exons
        ↔ 1 ≤ i ∧ ∃ c, t.sequence.data.get? (i - 1) = some c ∧ isUpperAZ c = true := by
    intro t i
    unfold Transcript.exons
    rw [List.mem_filterMap]
    constructor
    · rintro ⟨j, hj, hfj⟩
      obtain ⟨hb, c, hget, hup⟩ := exonStep_some t j i hfj
      subst hb
      exact ⟨by omega, c, by rw [Nat.add_sub_cancel]; exact hget, hup⟩
    · rintro ⟨h1, c, hget, hup⟩
      obtain ⟨hlt, _⟩ := List.get?_eq_some.mp hget
      refine ⟨i - 1, ?_, ?_⟩
      · rw [List.mem_range]
        show i - 1 < t.sequence.data.length
        omega
      · rw [hget]
        show (if isUpperAZ c = true then some (i - 1 + 1) else none) = some i
        rw [if_pos hup, Option.some_inj]
        omega
  refine ⟨hmem, ?_, ?_, by decide⟩
  · intro t
    unfold Transcript.exons
    rw [List.pairwise_filterMap]
    refine (List.pairwise_lt_range t.sequence.length).imp ?_
    intro a a' hlt b hb b' hb'
    rw [Option.mem_def] at hb hb'
    rw [(exonStep_some t a b hb).1, (exonStep_some t a' b' hb').1]
    omega
  · intro t i hi
    obtain ⟨h1, c, hget, _⟩ := (hmem t i).mp hi
    obtain ⟨hlt, _⟩ := List.get?_eq_some.mp hget
    refine ⟨h1, ?_⟩
    show i ≤ t.sequence.data.length
    omega

/-- Closed instance of C9: position 5 of acgtACGTacgt is an exon position
within bounds. -/
theorem C9_witness : 1 ≤ 5 ∧ 5 ≤ Transcript.length exTranMixed :=
  C9.2.2.1 exTranMixed 5 (by decide)

/-- C10: every ambiguity code of the table also matches its own literal
letter appearing in the upper-cased sequence, over and above the IUPAC
bases it stands for; in particular the motif N matches the literal sequence
base N, and the motif Y matches a literal sequence base Y. -/
theorem C10 :
    (∀ p ∈ ambig_nucleotides, p.1 ∈ unitChars p.1)
    ∧ Transcript.motifStarts exTranN exMotifN = [1]
    ∧ Transcript.motifStarts exTranYlit exMotifY = [2] := by
  refine ⟨by decide, by decide, by decide⟩

/-- Closed instance of C10 at the code N. -/
theorem C10_witness : 'N' ∈ unitChars 'N' :=
  C10.1 ('N', "[NAGCTU]") (by decide)

end MotifMark
